import Mathlib

/-!
Shallow embedding of the latency benchmark harness `elapsed_time` from
`generative-ai-talk-banglore-may-23/stable-diffusion-intel-openvino-demo.ipynb`:

```
def elapsed_time(pipeline, prompt, nb_pass=4, num_inference_steps=20):
    # warmup
    images = pipeline(prompt, num_inference_steps=10).images
    start = time.time()
    for _ in range(nb_pass):
        _ = pipeline(prompt, num_inference_steps=num_inference_steps, output_type="np")
    end = time.time()
    return (end - start) / nb_pass
```

The pipeline is an opaque external capability.  We model it as a state
machine: `run` consumes the pipeline's internal state and the call
arguments and either fails (a Python exception) or produces an output
object and a successor state; `duration` gives the wall-clock seconds the
call takes; `images` is the dynamic attribute lookup `.images` on the
output object (`none` models a missing attribute, i.e. AttributeError).
The ambient world carries the wall clock (`time.time()`), the pipeline's
state, and the trace of completed pipeline invocations in order.
Failures propagate as `Except.error` carrying the world at the moment of
the raise, mirroring Python exception propagation.
-/

/-- Arguments of one pipeline invocation: the positional prompt, the
`num_inference_steps` keyword, and the optional `output_type` keyword
(`none` when the keyword is omitted). -/
structure PipelineCall where
  prompt : String
  num_inference_steps : Nat
  output_type : Option String
deriving DecidableEq

/-- An opaque pipeline capability.  `σ` is its internal state, `ε` its
exception type, `β` the type of the object one call returns, `ι` the type
of the value stored in the output object's `images` attribute (when the
attribute exists). -/
structure Pipeline (ε σ β ι : Type) where
  run : σ → PipelineCall → Except ε (β × σ)
  duration : σ → PipelineCall → ℚ
  images : β → Option ι

/-- The ambient world: wall clock in seconds, the pipeline's internal
state, and the trace of completed pipeline invocations in order. -/
structure World (σ : Type) where
  clock : ℚ
  pipeState : σ
  calls : List PipelineCall
deriving DecidableEq

/-- Exceptions `elapsed_time` can propagate: an exception raised by the
pipeline itself, the AttributeError from the `.images` access on the
warm-up result, or the ZeroDivisionError of the final division. -/
inductive BenchError (ε : Type) where
  | pipe : ε → BenchError ε
  | attributeError : BenchError ε
  | zeroDivisionError : BenchError ε
deriving DecidableEq

/-- One pipeline invocation `pipeline(...)` in the world.  On success the
clock advances by the call's duration, the pipeline state steps, and the
call is appended to the trace of completed invocations.  On failure the
exception propagates with the world unchanged: the clock has not been
read, and the call is not recorded as completed. -/
def invoke {ε σ β ι : Type} (p : Pipeline ε σ β ι) (w : World σ) (c : PipelineCall) :
    Except (ε × World σ) (β × World σ) :=
  match p.run w.pipeState c with
  | Except.error e => Except.error (e, w)
  | Except.ok (out, s1) =>
      Except.ok (out, World.mk (w.clock + p.duration w.pipeState c) s1 (w.calls ++ [c]))

/-- The warm-up invocation `pipeline(prompt, num_inference_steps=10)`:
hard-coded step count 10, no `output_type` keyword. -/
def warmupCall (prompt : String) : PipelineCall :=
  PipelineCall.mk prompt 10 none

/-- A timed invocation
`pipeline(prompt, num_inference_steps=num_inference_steps, output_type="np")`. -/
def timedCall (prompt : String) (num_inference_steps : Nat) : PipelineCall :=
  PipelineCall.mk prompt num_inference_steps (some "np")

/-- The loop `for _ in range(nb_pass): _ = pipeline(...)`: `n` sequential
invocations of the same call `c`, outputs discarded.  A pipeline
exception aborts the remaining iterations and propagates. -/
def timedLoop {ε σ β ι : Type} (p : Pipeline ε σ β ι) (c : PipelineCall) :
    Nat → World σ → Except (BenchError ε × World σ) (World σ)
  | 0, w => Except.ok w
  | Nat.succ n, w =>
      match invoke p w c with
      | Except.error e => Except.error (BenchError.pipe e.1, e.2)
      | Except.ok (_, w1) => timedLoop p c n w1

/-- The benchmark harness `elapsed_time(pipeline, prompt, nb_pass,
num_inference_steps)` (defaults in the source: `nb_pass=4`,
`num_inference_steps=20`).  Line by line: the warm-up invocation whose
result's `.images` attribute is read and bound (an absent attribute
raises AttributeError); `start = time.time()`; the timed loop;
`end = time.time()`; `return (end - start) / nb_pass`, which raises
ZeroDivisionError when `nb_pass` is `0`. -/
def elapsed_time {ε σ β ι : Type} (p : Pipeline ε σ β ι) (prompt : String)
    (nb_pass : Nat) (num_inference_steps : Nat) (w : World σ) :
    Except (BenchError ε × World σ) (ℚ × World σ) :=
  match invoke p w (warmupCall prompt) with
  | Except.error e => Except.error (BenchError.pipe e.1, e.2)
  | Except.ok (out, w1) =>
      match p.images out with
      | none => Except.error (BenchError.attributeError, w1)
      | some _images =>
          let start := w1.clock
          match timedLoop p (timedCall prompt num_inference_steps) nb_pass w1 with
          | Except.error e => Except.error e
          | Except.ok w2 =>
              let endT := w2.clock
              if nb_pass = 0 then Except.error (BenchError.zeroDivisionError, w2)
              else Except.ok ((endT - start) / (nb_pass : ℚ), w2)

/-- Folding the pipeline's own `run` function over a list of calls,
starting from a pipeline state.  This is the reference for the frame
property: all pipeline-state change during a benchmark is produced by
`run` applications on the recorded calls, nothing else. -/
def runFold {ε σ β ι : Type} (p : Pipeline ε σ β ι) (s : σ) :
    List PipelineCall → Option σ
  | [] => some s
  | c :: cs =>
      match p.run s c with
      | Except.error _ => none
      | Except.ok (_, s1) => runFold p s1 cs

/-- A pipeline that always succeeds, takes a fixed duration `d` on every
call, returns an output whose `images` attribute is present, and counts
its invocations in its state.  Used to instantiate theorems at concrete
inputs. -/
def constPipe (d : ℚ) : Pipeline Unit Nat Unit Unit :=
  Pipeline.mk (fun s _ => Except.ok ((), s + 1)) (fun _ _ => d) (fun _ => some ())

/-- A pipeline that raises on its `k`-th invocation (counting from 0) and
otherwise behaves like `constPipe d`. -/
def failAt (k : Nat) (d : ℚ) : Pipeline Unit Nat Unit Unit :=
  Pipeline.mk
    (fun s _ => if s = k then Except.error () else Except.ok ((), s + 1))
    (fun _ _ => d)
    (fun _ => some ())

/-- A pipeline that succeeds but whose output object lacks the `images`
attribute. -/
def noImagesPipe (d : ℚ) : Pipeline Unit Nat Unit Unit :=
  Pipeline.mk (fun s _ => Except.ok ((), s + 1)) (fun _ _ => d) (fun _ => none)

/-- The initial world used by concrete instantiations: clock at 0, fresh
pipeline state, empty trace. -/
def w0 : World Nat :=
  World.mk 0 0 []

/-- The world after the warm-up invocation of a unit-duration pipeline
started from `w0`: one second elapsed, one call made, the warm-up call
recorded.  The clock is kept in unreduced form so that it coincides
definitionally with what `invoke` computes. -/
def wWarm1 : World Nat :=
  World.mk ((0 : ℚ) + 1) 1 [warmupCall "p"]

/-- The world after the warm-up and one timed invocation of a
unit-duration pipeline started from `w0`. -/
def wFail2 : World Nat :=
  World.mk ((0 : ℚ) + 1 + 1) 2 [warmupCall "p", timedCall "p" 20]

/-- The world after the warm-up and two timed invocations of a
unit-duration pipeline started from `w0`. -/
def wEnd2 : World Nat :=
  World.mk ((0 : ℚ) + 1 + 1 + 1) 3 [warmupCall "p", timedCall "p" 20, timedCall "p" 20]

/-- The value `elapsed_time` returns for a unit-duration pipeline,
`nb_pass = 2`, started from `w0`, in the unreduced form the harness
computes: the timed-region clock span divided by the number of passes. -/
def rQ : ℚ :=
  ((0 : ℚ) + 1 + 1 + 1 - ((0 : ℚ) + 1)) / ((2 : Nat) : ℚ)

/-! ## Helper lemmas -/

/-- Inverting a successful invocation: the pipeline's `run` succeeded and
the world advanced by exactly the call's duration, state step, and one
trace entry. -/
theorem invoke_ok_inv {ε σ β ι : Type} (p : Pipeline ε σ β ι) (w : World σ)
    (c : PipelineCall) (out : β) (w1 : World σ)
    (h : invoke p w c = Except.ok (out, w1)) :
    p.run w.pipeState c = Except.ok (out, w1.pipeState) ∧
    w1.clock = w.clock + p.duration w.pipeState c ∧
    w1.calls = w.calls ++ [c] := by
  unfold invoke at h
  cases hr : p.run w.pipeState c with
  | error e => rw [hr] at h; simp at h
  | ok os =>
      obtain ⟨o, s1⟩ := os
      rw [hr] at h
      simp only [Except.ok.injEq, Prod.mk.injEq] at h
      obtain ⟨ho, hw⟩ := h
      subst ho
      subst hw
      exact ⟨rfl, rfl, rfl⟩

/-- A successful timed loop of `n` iterations appends exactly `n` copies
of the call to the trace. -/
theorem timedLoop_ok_calls {ε σ β ι : Type} (p : Pipeline ε σ β ι) (c : PipelineCall)
    (n : Nat) (w w1 : World σ) (h : timedLoop p c n w = Except.ok w1) :
    w1.calls = w.calls ++ List.replicate n c := by
  induction n generalizing w with
  | zero =>
      simp only [timedLoop, Except.ok.injEq] at h
      subst h
      simp
  | succ n ih =>
      simp only [timedLoop] at h
      cases hi : invoke p w c with
      | error e => rw [hi] at h; simp at h
      | ok ow =>
          obtain ⟨o, w2⟩ := ow
          rw [hi] at h
          have hcalls := (invoke_ok_inv p w c o w2 hi).2.2
          rw [ih w2 h, hcalls]
          simp [List.replicate_succ]

/-- If every call duration is non-negative, a successful timed loop never
moves the clock backwards. -/
theorem timedLoop_ok_clock_le {ε σ β ι : Type} (p : Pipeline ε σ β ι) (c : PipelineCall)
    (hd : ∀ s c0, 0 ≤ p.duration s c0)
    (n : Nat) (w w1 : World σ) (h : timedLoop p c n w = Except.ok w1) :
    w.clock ≤ w1.clock := by
  induction n generalizing w with
  | zero =>
      simp only [timedLoop, Except.ok.injEq] at h
      subst h
      exact le_refl _
  | succ n ih =>
      simp only [timedLoop] at h
      cases hi : invoke p w c with
      | error e => rw [hi] at h; simp at h
      | ok ow =>
          obtain ⟨o, w2⟩ := ow
          rw [hi] at h
          have hclock := (invoke_ok_inv p w c o w2 hi).2.1
          have h1 : w.clock ≤ w2.clock := by
            rw [hclock]; exact le_add_of_nonneg_right (hd _ _)
          exact le_trans h1 (ih w2 h)

/-- A successful timed loop changes the pipeline state exactly by folding
the pipeline's own `run` over the repeated call. -/
theorem timedLoop_ok_runFold {ε σ β ι : Type} (p : Pipeline ε σ β ι) (c : PipelineCall)
    (n : Nat) (w w1 : World σ) (h : timedLoop p c n w = Except.ok w1) :
    runFold p w.pipeState (List.replicate n c) = some w1.pipeState := by
  induction n generalizing w with
  | zero =>
      simp only [timedLoop, Except.ok.injEq] at h
      subst h
      simp [runFold]
  | succ n ih =>
      simp only [timedLoop] at h
      cases hi : invoke p w c with
      | error e => rw [hi] at h; simp at h
      | ok ow =>
          obtain ⟨o, w2⟩ := ow
          rw [hi] at h
          have hrun := (invoke_ok_inv p w c o w2 hi).1
          simp only [List.replicate_succ, runFold, hrun]
          exact ih w2 h

/-- Splitting a timed loop: `m + n` iterations are `m` iterations, then,
when those succeed, `n` more from the reached world. -/
theorem timedLoop_add {ε σ β ι : Type} (p : Pipeline ε σ β ι) (c : PipelineCall)
    (m n : Nat) (w : World σ) :
    timedLoop p c (m + n) w =
      match timedLoop p c m w with
      | Except.error e => Except.error e
      | Except.ok w1 => timedLoop p c n w1 := by
  induction m generalizing w with
  | zero => simp [timedLoop, Nat.zero_add]
  | succ m ih =>
      have hadd : Nat.succ m + n = Nat.succ (m + n) := Nat.succ_add m n
      rw [hadd]
      simp only [timedLoop]
      cases hi : invoke p w c with
      | error e => rfl
      | ok ow => exact ih ow.2

/-- Every exception a timed loop propagates originates in the pipeline. -/
theorem timedLoop_error_pipe {ε σ β ι : Type} (p : Pipeline ε σ β ι) (c : PipelineCall)
    (n : Nat) (w : World σ) (b : BenchError ε) (v : World σ)
    (h : timedLoop p c n w = Except.error (b, v)) :
    ∃ e0, b = BenchError.pipe e0 := by
  induction n generalizing w with
  | zero => simp [timedLoop] at h
  | succ n ih =>
      simp only [timedLoop] at h
      cases hi : invoke p w c with
      | error e =>
          rw [hi] at h
          simp only [Except.error.injEq, Prod.mk.injEq] at h
          exact ⟨e.1, h.1.symm⟩
      | ok ow =>
          rw [hi] at h
          exact ih ow.2 h

/-- For a pipeline that always succeeds with a fixed duration `d`, the
timed loop succeeds, advances the clock by `n * d`, and appends `n`
copies of the call. -/
theorem timedLoop_const_ok {ε σ β ι : Type} (p : Pipeline ε σ β ι) (c : PipelineCall)
    (d : ℚ)
    (hrun : ∀ s c0, ∃ out s1, p.run s c0 = Except.ok (out, s1))
    (hdur : ∀ s c0, p.duration s c0 = d)
    (n : Nat) (w : World σ) :
    ∃ w1, timedLoop p c n w = Except.ok w1 ∧
      w1.clock = w.clock + n * d ∧
      w1.calls = w.calls ++ List.replicate n c := by
  induction n generalizing w with
  | zero =>
      refine ⟨w, ?_, ?_, ?_⟩ <;> simp [timedLoop]
  | succ n ih =>
      obtain ⟨out, s1, hr⟩ := hrun w.pipeState c
      have hi : invoke p w c =
          Except.ok (out, World.mk (w.clock + d) s1 (w.calls ++ [c])) := by
        unfold invoke
        rw [hr, hdur]
      obtain ⟨w1, hloop, hclock, hcalls⟩ := ih (World.mk (w.clock + d) s1 (w.calls ++ [c]))
      refine ⟨w1, ?_, ?_, ?_⟩
      · simp only [timedLoop, hi]
        exact hloop
      · rw [hclock]
        push_cast
        ring
      · rw [hcalls]
        simp [List.replicate_succ]

/-- Inverting a successful benchmark run: the warm-up succeeded, its
result exposed `images`, every timed iteration succeeded, `nb_pass` is
nonzero, and the result is the clock span of the timed region divided by
`nb_pass`. -/
theorem elapsed_time_ok_inv {ε σ β ι : Type} (p : Pipeline ε σ β ι) (prompt : String)
    (nb_pass num_inference_steps : Nat) (w : World σ) (r : ℚ) (w2 : World σ)
    (h : elapsed_time p prompt nb_pass num_inference_steps w = Except.ok (r, w2)) :
    ∃ out w1 i, invoke p w (warmupCall prompt) = Except.ok (out, w1) ∧
      p.images out = some i ∧
      timedLoop p (timedCall prompt num_inference_steps) nb_pass w1 = Except.ok w2 ∧
      nb_pass ≠ 0 ∧
      r = (w2.clock - w1.clock) / (nb_pass : ℚ) := by
  unfold elapsed_time at h
  split at h
  · simp at h
  · rename_i out w1 heqw
    split at h
    · simp at h
    · rename_i i heqi
      split at h
      · simp at h
      · rename_i w3 heqt
        split at h
        · simp at h
        · rename_i hnb
          simp only [Except.ok.injEq, Prod.mk.injEq] at h
          obtain ⟨hr, hw3⟩ := h
          subst hw3
          exact ⟨out, w1, i, heqw, heqi, heqt, hnb, hr.symm⟩

/-- For a pipeline that always succeeds with fixed duration `d` on every
call and always exposes `images`, a benchmark run with nonzero `nb_pass`
succeeds, returns exactly `d`, and its trace records the warm-up call
followed by `nb_pass` timed calls. -/
theorem elapsed_time_const_ok {ε σ β ι : Type} (p : Pipeline ε σ β ι) (prompt : String)
    (nb_pass num_inference_steps : Nat) (w : World σ) (d : ℚ)
    (hrun : ∀ s c0, ∃ out s1, p.run s c0 = Except.ok (out, s1))
    (himg : ∀ out, ∃ i, p.images out = some i)
    (hdur : ∀ s c0, p.duration s c0 = d)
    (hnb : 0 < nb_pass) :
    ∃ w2, elapsed_time p prompt nb_pass num_inference_steps w = Except.ok (d, w2) ∧
      w2.calls = w.calls ++
        warmupCall prompt :: List.replicate nb_pass (timedCall prompt num_inference_steps) := by
  obtain ⟨out, s1, hr⟩ := hrun w.pipeState (warmupCall prompt)
  have hw : invoke p w (warmupCall prompt) =
      Except.ok (out, World.mk (w.clock + d) s1 (w.calls ++ [warmupCall prompt])) := by
    unfold invoke
    rw [hr, hdur]
  obtain ⟨i, hi⟩ := himg out
  obtain ⟨w2, ht, hclock, hcalls⟩ :=
    timedLoop_const_ok p (timedCall prompt num_inference_steps) d hrun hdur nb_pass
      (World.mk (w.clock + d) s1 (w.calls ++ [warmupCall prompt]))
  have hnb0 : nb_pass ≠ 0 := Nat.pos_iff_ne_zero.mp hnb
  refine ⟨w2, ?_, ?_⟩
  · have hval : (w2.clock - (w.clock + d)) / (nb_pass : ℚ) = d := by
      rw [hclock]
      have hcast : ((nb_pass : ℚ)) ≠ 0 := Nat.cast_ne_zero.mpr hnb0
      field_simp
    unfold elapsed_time
    rw [hw]
    dsimp only
    rw [hi]
    dsimp only
    rw [ht]
    dsimp only
    rw [if_neg hnb0, hval]
  · rw [hcalls]
    simp

/-- A timed loop with at least one iteration left propagates a failure of
the very next invocation, with the world unchanged. -/
theorem timedLoop_fail_head {ε σ β ι : Type} (p : Pipeline ε σ β ι) (c : PipelineCall)
    (w : World σ) (e : ε) (hfail : p.run w.pipeState c = Except.error e) (n : Nat) :
    timedLoop p c (Nat.succ n) w = Except.error (BenchError.pipe e, w) := by
  simp only [timedLoop]
  unfold invoke
  rw [hfail]

/-! ## Claims -/

/-- C1: for every pipeline capability that always succeeds, every
non-empty prompt, every positive `nb_pass` and every positive
`num_inference_steps`, a single call to `elapsed_time` invokes the
pipeline exactly `1 + nb_pass` times — first one warm-up invocation, then
`nb_pass` sequential timed invocations each with the given prompt and
`num_inference_steps` — and if each call takes a fixed deterministic
duration `d`, the returned average equals `d`. -/
theorem C1_total_invocations_and_average {ε σ β ι : Type} (p : Pipeline ε σ β ι)
    (prompt : String) (nb_pass num_inference_steps : Nat) (w : World σ) (d : ℚ)
    (hprompt : prompt ≠ "")
    (hnb : 0 < nb_pass)
    (hsteps : 0 < num_inference_steps)
    (hrun : ∀ s c0, ∃ out s1, p.run s c0 = Except.ok (out, s1))
    (himg : ∀ out, ∃ i, p.images out = some i)
    (hdur : ∀ s c0, p.duration s c0 = d) :
    ∃ w2, elapsed_time p prompt nb_pass num_inference_steps w = Except.ok (d, w2) ∧
      w2.calls = w.calls ++
        warmupCall prompt :: List.replicate nb_pass (timedCall prompt num_inference_steps) ∧
      w2.calls.length = w.calls.length + (1 + nb_pass) := by
  obtain ⟨w2, hok, hcalls⟩ :=
    elapsed_time_const_ok p prompt nb_pass num_inference_steps w d hrun himg hdur hnb
  refine ⟨w2, hok, hcalls, ?_⟩
  rw [hcalls]
  simp [Nat.add_comm]

/-- C1 witness: a unit-duration always-succeeding pipeline, prompt `"p"`,
two passes, twenty steps, from the initial world. -/
theorem C1_total_invocations_and_average_witness :
    ∃ w2, elapsed_time (constPipe 1) "p" 2 20 w0 = Except.ok (1, w2) ∧
      w2.calls = w0.calls ++ warmupCall "p" :: List.replicate 2 (timedCall "p" 20) ∧
      w2.calls.length = w0.calls.length + (1 + 2) :=
  C1_total_invocations_and_average (constPipe 1) "p" 2 20 w0 1
    (by decide) (by decide) (by decide)
    (fun s c0 => ⟨(), s + 1, rfl⟩) (fun out => ⟨(), rfl⟩) (fun s c0 => rfl)

/-- C2: for every successful run of `elapsed_time`, the returned value
equals `(end − start) / nb_pass` where `start` is the clock right after
the warm-up invocation completed and `end` is the clock after the last
timed invocation completed; the warm-up call's own duration is already
inside `start`, so it is excluded from the returned average. -/
theorem C2_mean_of_timed_region_excludes_warmup {ε σ β ι : Type}
    (p : Pipeline ε σ β ι) (prompt : String) (nb_pass num_inference_steps : Nat)
    (w : World σ) (out : β) (w1 : World σ) (r : ℚ) (w2 : World σ)
    (hwarm : invoke p w (warmupCall prompt) = Except.ok (out, w1))
    (h : elapsed_time p prompt nb_pass num_inference_steps w = Except.ok (r, w2)) :
    r = (w2.clock - w1.clock) / (nb_pass : ℚ) ∧
    w1.clock = w.clock + p.duration w.pipeState (warmupCall prompt) := by
  obtain ⟨out', w1', i, hw', hi, ht, hnb, hr⟩ :=
    elapsed_time_ok_inv p prompt nb_pass num_inference_steps w r w2 h
  rw [hwarm] at hw'
  simp only [Except.ok.injEq, Prod.mk.injEq] at hw'
  obtain ⟨ho, hw1⟩ := hw'
  subst hw1
  exact ⟨hr, (invoke_ok_inv p w (warmupCall prompt) out w1 hwarm).2.1⟩

/-- C2 witness: the unit-duration pipeline with two passes from the
initial world; the returned value is the timed-region span over 2. -/
theorem C2_mean_of_timed_region_excludes_warmup_witness :
    rQ = (wEnd2.clock - wWarm1.clock) / ((2 : Nat) : ℚ) ∧
    wWarm1.clock = w0.clock + (constPipe 1).duration w0.pipeState (warmupCall "p") :=
  C2_mean_of_timed_region_excludes_warmup (constPipe 1) "p" 2 20 w0 () wWarm1 rQ wEnd2
    rfl rfl

/-- C3: if the pipeline raises on the warm-up invocation, `elapsed_time`
performs zero timed invocations and records no timestamp — the resulting
world is the initial one, with trace and clock untouched — and the
failure propagates unmodified, with no retry and no partial-result
averaging. -/
theorem C3_warmup_failure_propagates {ε σ β ι : Type} (p : Pipeline ε σ β ι)
    (prompt : String) (nb_pass num_inference_steps : Nat) (w : World σ) (e : ε)
    (hfail : p.run w.pipeState (warmupCall prompt) = Except.error e) :
    elapsed_time p prompt nb_pass num_inference_steps w =
      Except.error (BenchError.pipe e, w) := by
  unfold elapsed_time invoke
  rw [hfail]

/-- C3 witness: a pipeline that raises on its very first invocation. -/
theorem C3_warmup_failure_propagates_witness :
    elapsed_time (failAt 0 1) "p" 4 20 w0 = Except.error (BenchError.pipe (), w0) :=
  C3_warmup_failure_propagates (failAt 0 1) "p" 4 20 w0 () rfl

/-- C4: for every `k` with `1 ≤ k ≤ nb_pass`, if the warm-up and the
first `k − 1` timed invocations succeed and the pipeline raises on the
`k`-th timed invocation, `elapsed_time` propagates that failure
immediately: the reported world contains exactly the warm-up call and the
first `k − 1` timed calls, so timed invocations `k+1` through `nb_pass`
never execute. -/
theorem C4_kth_timed_failure_aborts {ε σ β ι : Type} (p : Pipeline ε σ β ι)
    (prompt : String) (nb_pass num_inference_steps : Nat) (w : World σ) (k : Nat)
    (out : β) (i : ι) (w1 wk : World σ) (e : ε)
    (hk1 : 1 ≤ k) (hk2 : k ≤ nb_pass)
    (hwarm : invoke p w (warmupCall prompt) = Except.ok (out, w1))
    (himg : p.images out = some i)
    (hok : timedLoop p (timedCall prompt num_inference_steps) (k - 1) w1 = Except.ok wk)
    (hfail : p.run wk.pipeState (timedCall prompt num_inference_steps) = Except.error e) :
    elapsed_time p prompt nb_pass num_inference_steps w =
      Except.error (BenchError.pipe e, wk) ∧
    wk.calls = w.calls ++
      warmupCall prompt :: List.replicate (k - 1) (timedCall prompt num_inference_steps) := by
  have hsplit : nb_pass = (k - 1) + Nat.succ (nb_pass - k) := by omega
  have hloop : timedLoop p (timedCall prompt num_inference_steps) nb_pass w1 =
      Except.error (BenchError.pipe e, wk) := by
    rw [hsplit,
      timedLoop_add p (timedCall prompt num_inference_steps) (k - 1) (Nat.succ (nb_pass - k)) w1,
      hok]
    exact timedLoop_fail_head p (timedCall prompt num_inference_steps) wk e hfail
      (nb_pass - k)
  constructor
  · unfold elapsed_time
    rw [hwarm]
    dsimp only
    rw [himg]
    dsimp only
    rw [hloop]
  · have h1 := (invoke_ok_inv p w (warmupCall prompt) out w1 hwarm).2.2
    have h2 := timedLoop_ok_calls p (timedCall prompt num_inference_steps) (k - 1) w1 wk hok
    rw [h2, h1]
    simp

/-- C4 witness: a pipeline that raises on its third invocation overall,
i.e. on the second timed invocation (`k = 2`) of a four-pass run. -/
theorem C4_kth_timed_failure_aborts_witness :
    elapsed_time (failAt 2 1) "p" 4 20 w0 = Except.error (BenchError.pipe (), wFail2) ∧
    wFail2.calls = w0.calls ++ warmupCall "p" :: List.replicate (2 - 1) (timedCall "p" 20) :=
  C4_kth_timed_failure_aborts (failAt 2 1) "p" 4 20 w0 2 () () wWarm1 wFail2 ()
    (by decide) (by decide) rfl rfl rfl rfl

/-- C5: in every successful run of `elapsed_time`, the warm-up invocation
passes the hard-coded step count `10` (and no `output_type`) regardless
of the `num_inference_steps` argument, while every timed invocation
passes the caller-supplied `num_inference_steps`: the completed trace is
the warm-up call at step count 10 followed by `nb_pass` timed calls at
`num_inference_steps`. -/
theorem C5_warmup_hardcoded_ten_steps {ε σ β ι : Type} (p : Pipeline ε σ β ι)
    (prompt : String) (nb_pass num_inference_steps : Nat) (w : World σ)
    (r : ℚ) (w2 : World σ)
    (h : elapsed_time p prompt nb_pass num_inference_steps w = Except.ok (r, w2)) :
    w2.calls = w.calls ++ PipelineCall.mk prompt 10 none ::
      List.replicate nb_pass (PipelineCall.mk prompt num_inference_steps (some "np")) := by
  obtain ⟨out, w1, i, hw, hi, ht, hnb, hr⟩ :=
    elapsed_time_ok_inv p prompt nb_pass num_inference_steps w r w2 h
  have h1 := (invoke_ok_inv p w (warmupCall prompt) out w1 hw).2.2
  have h2 := timedLoop_ok_calls p (timedCall prompt num_inference_steps) nb_pass w1 w2 ht
  rw [h2, h1]
  simp [warmupCall, timedCall]

/-- C5 witness: the unit-duration pipeline with `num_inference_steps`
equal to 20; the trace shows the warm-up at 10 steps nevertheless. -/
theorem C5_warmup_hardcoded_ten_steps_witness :
    wEnd2.calls = w0.calls ++ PipelineCall.mk "p" 10 none ::
      List.replicate 2 (PipelineCall.mk "p" 20 (some "np")) :=
  C5_warmup_hardcoded_ten_steps (constPipe 1) "p" 2 20 w0 rQ wEnd2 rfl

/-- C6: for every successful run of `elapsed_time` with positive
`nb_pass` (and a clock that never runs backwards, i.e. non-negative call
durations), the returned value is non-negative, and it is computed only
after at least one untimed warm-up invocation has completed: the final
trace contains the warm-up call. -/
theorem C6_result_nonneg_after_warmup {ε σ β ι : Type} (p : Pipeline ε σ β ι)
    (prompt : String) (nb_pass num_inference_steps : Nat) (w : World σ)
    (r : ℚ) (w2 : World σ)
    (hnb : 0 < nb_pass)
    (hd : ∀ s c0, 0 ≤ p.duration s c0)
    (h : elapsed_time p prompt nb_pass num_inference_steps w = Except.ok (r, w2)) :
    0 ≤ r ∧ warmupCall prompt ∈ w2.calls := by
  obtain ⟨out, w1, i, hw, hi, ht, hnb0, hr⟩ :=
    elapsed_time_ok_inv p prompt nb_pass num_inference_steps w r w2 h
  constructor
  · rw [hr]
    apply div_nonneg
    · have hle := timedLoop_ok_clock_le p (timedCall prompt num_inference_steps) hd
        nb_pass w1 w2 ht
      linarith
    · exact Nat.cast_nonneg nb_pass
  · have h1 := (invoke_ok_inv p w (warmupCall prompt) out w1 hw).2.2
    have h2 := timedLoop_ok_calls p (timedCall prompt num_inference_steps) nb_pass w1 w2 ht
    rw [h2, h1]
    simp

/-- C6 witness: the unit-duration pipeline with two passes. -/
theorem C6_result_nonneg_after_warmup_witness :
    (0 : ℚ) ≤ rQ ∧ warmupCall "p" ∈ wEnd2.calls :=
  C6_result_nonneg_after_warmup (constPipe 1) "p" 2 20 w0 rQ wEnd2
    (by decide) (fun s c0 => zero_le_one) rfl

/-- C7: `elapsed_time` does not mutate the pipeline it is given — it only
invokes it.  In every successful run, the recorded calls are exactly the
warm-up and the `nb_pass` timed invocations, and the pipeline's final
state is exactly the fold of the pipeline's own `run` function over those
recorded calls from its initial state: every observable change to the
pipeline's state is caused by the pipeline's own invocations, none by an
assignment performed by the harness. -/
theorem C7_harness_only_invokes_pipeline {ε σ β ι : Type} (p : Pipeline ε σ β ι)
    (prompt : String) (nb_pass num_inference_steps : Nat) (w : World σ)
    (r : ℚ) (w2 : World σ)
    (h : elapsed_time p prompt nb_pass num_inference_steps w = Except.ok (r, w2)) :
    w2.calls = w.calls ++
      warmupCall prompt :: List.replicate nb_pass (timedCall prompt num_inference_steps) ∧
    runFold p w.pipeState
        (warmupCall prompt :: List.replicate nb_pass (timedCall prompt num_inference_steps)) =
      some w2.pipeState := by
  obtain ⟨out, w1, i, hw, hi, ht, hnb, hr⟩ :=
    elapsed_time_ok_inv p prompt nb_pass num_inference_steps w r w2 h
  obtain ⟨hrun1, hclock1, hcalls1⟩ := invoke_ok_inv p w (warmupCall prompt) out w1 hw
  constructor
  · rw [timedLoop_ok_calls p (timedCall prompt num_inference_steps) nb_pass w1 w2 ht,
      hcalls1]
    simp
  · simp only [runFold, hrun1]
    exact timedLoop_ok_runFold p (timedCall prompt num_inference_steps) nb_pass w1 w2 ht

/-- C7 witness: the unit-duration pipeline with two passes; its state is
the invocation counter, and the fold of its own `run` over the three
recorded calls yields the final counter 3. -/
theorem C7_harness_only_invokes_pipeline_witness :
    wEnd2.calls = w0.calls ++
      warmupCall "p" :: List.replicate 2 (timedCall "p" 20) ∧
    runFold (constPipe 1) w0.pipeState
        (warmupCall "p" :: List.replicate 2 (timedCall "p" 20)) =
      some wEnd2.pipeState :=
  C7_harness_only_invokes_pipeline (constPipe 1) "p" 2 20 w0 rQ wEnd2 rfl

/-- C8: for a deterministic pipeline capability — one that succeeds on
every call with the same fixed duration `d` and always exposes `images` —
two successive calls to `elapsed_time` with identical arguments return
the same average: the harness keeps no state of its own across calls, so
the second run (starting from whatever world the first one left) yields
the very same value. -/
theorem C8_deterministic_pipeline_idempotent {ε σ β ι : Type} (p : Pipeline ε σ β ι)
    (prompt : String) (nb_pass num_inference_steps : Nat) (w : World σ) (d : ℚ)
    (hnb : 0 < nb_pass)
    (hrun : ∀ s c0, ∃ out s1, p.run s c0 = Except.ok (out, s1))
    (himg : ∀ out, ∃ i, p.images out = some i)
    (hdur : ∀ s c0, p.duration s c0 = d) :
    ∃ r wA wB, elapsed_time p prompt nb_pass num_inference_steps w = Except.ok (r, wA) ∧
      elapsed_time p prompt nb_pass num_inference_steps wA = Except.ok (r, wB) := by
  obtain ⟨wA, hA, hcallsA⟩ :=
    elapsed_time_const_ok p prompt nb_pass num_inference_steps w d hrun himg hdur hnb
  obtain ⟨wB, hB, hcallsB⟩ :=
    elapsed_time_const_ok p prompt nb_pass num_inference_steps wA d hrun himg hdur hnb
  exact ⟨d, wA, wB, hA, hB⟩

/-- C8 witness: two successive runs of the harness on the unit-duration
pipeline with identical arguments. -/
theorem C8_deterministic_pipeline_idempotent_witness :
    ∃ r wA wB, elapsed_time (constPipe 1) "p" 2 20 w0 = Except.ok (r, wA) ∧
      elapsed_time (constPipe 1) "p" 2 20 wA = Except.ok (r, wB) :=
  C8_deterministic_pipeline_idempotent (constPipe 1) "p" 2 20 w0 1 (by decide)
    (fun s c0 => ⟨(), s + 1, rfl⟩) (fun out => ⟨(), rfl⟩) (fun s c0 => rfl)

/-- C9: if `elapsed_time` is called with `nb_pass = 0` (violating the
positive-integer precondition) and the warm-up invocation succeeds, the
warm-up still executes (the resulting trace gains exactly the warm-up
call), zero timed invocations occur, and the final division raises
ZeroDivisionError; and for every `nb_pass ≥ 1` that error is unreachable:
no failing run reports ZeroDivisionError. -/
theorem C9_zero_nb_pass_zero_division {ε σ β ι : Type} (p : Pipeline ε σ β ι)
    (prompt : String) (num_inference_steps : Nat) (w : World σ)
    (out : β) (w1 : World σ) (i : ι)
    (hwarm : invoke p w (warmupCall prompt) = Except.ok (out, w1))
    (himg : p.images out = some i) :
    (elapsed_time p prompt 0 num_inference_steps w =
        Except.error (BenchError.zeroDivisionError, w1) ∧
      w1.calls = w.calls ++ [warmupCall prompt]) ∧
    ∀ nb_pass, 0 < nb_pass → ∀ b v,
      elapsed_time p prompt nb_pass num_inference_steps w = Except.error (b, v) →
      b ≠ BenchError.zeroDivisionError := by
  constructor
  · constructor
    · unfold elapsed_time
      rw [hwarm]
      dsimp only
      rw [himg]
      rfl
    · exact (invoke_ok_inv p w (warmupCall prompt) out w1 hwarm).2.2
  · intro nb hnb b v herr
    have hnb0 : nb ≠ 0 := Nat.pos_iff_ne_zero.mp hnb
    unfold elapsed_time at herr
    split at herr
    · simp only [Except.error.injEq, Prod.mk.injEq] at herr
      rw [← herr.1]
      intro hcontra
      exact BenchError.noConfusion hcontra
    · rename_i out' w1' heqw
      split at herr
      · simp only [Except.error.injEq, Prod.mk.injEq] at herr
        rw [← herr.1]
        intro hcontra
        exact BenchError.noConfusion hcontra
      · rename_i i' heqi
        split at herr
        · rename_i e' heqt
          dsimp only at herr
          simp only [Except.error.injEq] at herr
          subst herr
          obtain ⟨e0, he0⟩ := timedLoop_error_pipe p
            (timedCall prompt num_inference_steps) nb w1' b v heqt
          rw [he0]
          intro hcontra
          exact BenchError.noConfusion hcontra
        · rename_i w3 heqt
          dsimp only at herr
          rw [if_neg hnb0] at herr
          exact absurd herr (by simp)

/-- C9 witness: the unit-duration pipeline with `nb_pass = 0`; the
warm-up executes, then the division raises. -/
theorem C9_zero_nb_pass_zero_division_witness :
    elapsed_time (constPipe 1) "p" 0 20 w0 =
        Except.error (BenchError.zeroDivisionError, wWarm1) ∧
      wWarm1.calls = w0.calls ++ [warmupCall "p"] :=
  (C9_zero_nb_pass_zero_division (constPipe 1) "p" 20 w0 () wWarm1 () rfl rfl).1

/-- C10: the warm-up invocation differs from the timed ones in more than
the step count: it omits the `output_type="np"` keyword that every timed
invocation passes, and the `.images` attribute of its result is accessed,
so `elapsed_time` requires the warm-up return value to expose `.images` —
when the attribute is missing the run fails with AttributeError right
after the warm-up call, showing the warm-up result is not discarded
unexamined. -/
theorem C10_warmup_requires_images_attr {ε σ β ι : Type} (p : Pipeline ε σ β ι)
    (prompt : String) (nb_pass num_inference_steps : Nat) (w : World σ)
    (out : β) (w1 : World σ)
    (hwarm : invoke p w (warmupCall prompt) = Except.ok (out, w1))
    (hnoimg : p.images out = none) :
    elapsed_time p prompt nb_pass num_inference_steps w =
      Except.error (BenchError.attributeError, w1) ∧
    (warmupCall prompt).output_type = none ∧
    (timedCall prompt num_inference_steps).output_type = some "np" := by
  refine ⟨?_, rfl, rfl⟩
  unfold elapsed_time
  rw [hwarm]
  dsimp only
  rw [hnoimg]

/-- C10 witness: a pipeline whose output lacks the `images` attribute;
the run fails with AttributeError after the warm-up call. -/
theorem C10_warmup_requires_images_attr_witness :
    elapsed_time (noImagesPipe 1) "p" 4 20 w0 =
      Except.error (BenchError.attributeError, wWarm1) ∧
    (warmupCall "p").output_type = none ∧
    (timedCall "p" 20).output_type = some "np" :=
  C10_warmup_requires_images_attr (noImagesPipe 1) "p" 4 20 w0 () wWarm1 rfl rfl
